import Mathlib

/-!
Shallow embedding of `password_policy/stats.py` (class `PasswordStats`).
A password is modelled as a `List Char` (a Python unicode string is a
sequence of code points).  Pure methods become Lean functions; the two
`while` loops of the detectors are embedded with an explicit fuel
parameter that mirrors the loop bound (each iteration consumes at least
one character, so `password.length` units of fuel always suffice — this
is proved below).
-/

/-- Password length: `len(self.password)`. -/
def length (p : List Char) : Nat := p.length

/-- Alphabet: `set(self.password)` — the distinct code points, modelled
as the deduplicated list. -/
def alphabet (p : List Char) : List Char := p.dedup

/-- Alphabet cardinality: `len(self.alphabet)`. -/
def alphabet_cardinality (p : List Char) : Nat := (alphabet p).length

/-- The items of `collections.Counter(l)`: each distinct value paired
with its multiplicity in `l` (iteration order of a Counter is
irrelevant to every use in the source, which only sums over items). -/
def counterItems (l : List String) : List (String × Nat) :=
  l.dedup.map (fun s => (s, l.count s))

/-- `char_categories_detailed`: `Counter(map(unicodedata.category, password))`.
The Unicode category function is an external collaborator, passed as the
parameter `category`. -/
def char_categories_detailed (category : Char → String) (p : List Char) :
    List (String × Nat) :=
  counterItems (p.map category)

/-- `char_categories`: the detailed counter aggregated by the first letter
of the category code (`c[cat[0]] += n`).  Aggregating the detailed
multiset by first letter yields the same counter as counting the
first-letter image of the password directly. -/
def char_categories (category : Char → String) (p : List Char) :
    List (String × Nat) :=
  counterItems ((p.map category).map (fun cat => cat.take 1))

/-- `count(*categories)`:
`sum(map(lambda (cat, n): int(cat in categories)*n, self.char_categories.items()))`. -/
def count (category : Char → String) (p : List Char) (cats : List String) : Nat :=
  ((char_categories category p).map
    (fun x => (if x.1 ∈ cats then 1 else 0) * x.2)).sum

/-- `count_except(*categories)`:
`sum(map(lambda (cat, n): int(cat not in categories)*n, self.char_categories.items()))`. -/
def count_except (category : Char → String) (p : List Char) (cats : List String) : Nat :=
  ((char_categories category p).map
    (fun x => (if x.1 ∈ cats then 0 else 1) * x.2)).sum

/-- `combinations`: `self.alphabet_cardinality ** self.length` (Python's
arbitrary-precision integer power; `0 ** 0 == 1`). -/
def combinations (p : List Char) : Nat :=
  alphabet_cardinality p ^ length p

/-- `entropy_bits`: `self.length * log(self.alphabet_cardinality, 2)`.
Python's `math.log(x, 2)` is `log x / log 2` and raises
`ValueError: math domain error` when `x == 0` (both operands of `*` are
evaluated, so the multiplication by `length == 0` does not avoid the
call).  The raising branch is modelled as `Except.error ()`. -/
noncomputable def entropy_bits (p : List Char) : Except Unit ℝ :=
  if alphabet_cardinality p = 0 then Except.error ()
  else Except.ok ((length p : ℝ) * Real.logb 2 (alphabet_cardinality p))

/-- `strength()`: the method body is empty (only a docstring), and a
Python function that falls off its end returns `None`, modelled as
`Option.none`; a numeric return value would be `some q`. -/
def strength (_p : List Char) : Option ℚ := none

/-! ### Repeated-pattern detector

`_repeated_patterns_rex = re.compile(r'((.+?)\2+)', re.UNICODE | re.DOTALL | re.IGNORECASE)`
and `repeated_patterns_length` sums `len(substring)` over
`findall(password)`.  `findall` scans left to right; at each position
the lazy group `(.+?)` tries the shortest unit whose backreference
`\2+` matches at least once (case-insensitively, `.` matching any code
point under DOTALL), the greedy `\2+` then consumes the maximal number
of copies, and scanning resumes after the consumed span. -/

/-- Case-insensitive character comparison used by `re.IGNORECASE` for
the backreference `\2`. -/
def ciEq (a b : Char) : Bool := a.toLower == b.toLower

/-- Case-insensitive "u is a prefix of s". -/
def ciIsPrefixOf : List Char → List Char → Bool
  | [], _ => true
  | _ :: _, [] => false
  | a :: as, b :: bs => ciEq a b && ciIsPrefixOf as bs

/-- Number of consecutive copies of the (non-empty) unit `u` at the
front of `s`: the greedy `\2+` count.  Each copy consumes `u.length ≥ 1`
characters, so `s.length` fuel always suffices. -/
def countRepsF : Nat → List Char → List Char → Nat
  | 0, _, _ => 0
  | fuel + 1, u, s =>
    if !u.isEmpty && ciIsPrefixOf u s then
      1 + countRepsF fuel u (s.drop u.length)
    else 0

/-- The lazy `(.+?)` search at the current position: the smallest unit
length `k ≥ 1` such that the unit `s.take k` is immediately followed by
at least one case-insensitive copy of itself (`\2+` needs one copy, so
`2*k ≤ s.length`, i.e. `k ≤ s.length / 2`). -/
def findUnit (s : List Char) : Option Nat :=
  (List.range' 1 (s.length / 2)).find?
    (fun k => ciIsPrefixOf (s.take k) (s.drop k))

/-- The `findall` scan: at each position, if the pattern matches, add
the whole matched span (unit plus all its greedy repetitions) and
resume after it; otherwise advance one position.  Every step consumes
at least one character, so `s.length` fuel suffices. -/
def repScanF : Nat → List Char → Nat
  | 0, _ => 0
  | _ + 1, [] => 0
  | fuel + 1, c :: rest =>
    match findUnit (c :: rest) with
    | none => repScanF fuel rest
    | some k =>
      let u := (c :: rest).take k
      let m := countRepsF ((c :: rest).drop k).length u ((c :: rest).drop k)
      let span := k * (1 + m)
      span + repScanF fuel ((c :: rest).drop span)

/-- `repeated_patterns_length`. -/
def repeated_patterns_length (p : List Char) : Nat :=
  repScanF p.length p

/-! ### Sequence detector -/

/-- The four concatenated weak-sequence alphabets of `_sequences`
(string literals exactly as in the source). -/
def _sequences_base : List Char :=
  ("abcdefghijklmnopqrstuvwxyz"
    ++ "qwertyuiopasdfghjklzxcvbnm"
    ++ "~!@#$%^&*()_+-="
    ++ "01234567890").toList

/-- `_sequences = _sequences + _sequences[::-1]`. -/
def _sequences : List Char := _sequences_base ++ _sequences_base.reverse

/-- Longest common prefix length of two strings: the inner
`for a, b in izip(password, self._sequences[j:])` loop. -/
def commonPrefixLen : List Char → List Char → Nat
  | a :: as, b :: bs => if a = b then commonPrefixLen as bs + 1 else 0
  | _, _ => 0

/-- The inner `while True` loop of `sequences_length`: scan the table
for every occurrence `j` of the first character of the suffix `s`
(`self._sequences.find(password[0], j+1)`), take the longest common
prefix of `s` with the table suffix there, and keep the running maximum
in `best` (initialised to 1). -/
def maxCommonAt (s : List Char) : List Char → Nat → Nat
  | [], best => best
  | b :: rest, best =>
    if s.head? = some b then
      maxCommonAt s rest (max best (commonPrefixLen s (b :: rest)))
    else
      maxCommonAt s rest best

/-- `common_length` computed at the suffix `s` of the password. -/
def commonLength (s : List Char) : Nat := maxCommonAt s _sequences 1

/-- The outer `while i < len(self.password)` loop: add `common_length`
when it exceeds 1, then skip `i` ahead by `common_length`.  Each
iteration advances by `common_length ≥ 1`, so `s.length` fuel always
suffices (proved below). -/
def seqLoopF : Nat → List Char → Nat
  | 0, _ => 0
  | _ + 1, [] => 0
  | fuel + 1, c :: rest =>
    let cl := commonLength (c :: rest)
    (if cl > 1 then cl else 0) + seqLoopF fuel ((c :: rest).drop cl)

/-- `sequences_length`. -/
def sequences_length (p : List Char) : Nat :=
  seqLoopF p.length p

/-! ### Tables named by the specification (for comparison with `_sequences`) -/

/-- The table exactly as claim C4 words it: lowercase letters, the
keyboard row, the shifted top-row symbols, and the digits 0 through 9
each exactly once, then the reverse of that concatenation. -/
def claimedSequenceBase : List Char :=
  ("abcdefghijklmnopqrstuvwxyz"
    ++ "qwertyuiopasdfghjklzxcvbnm"
    ++ "~!@#$%^&*()_+-="
    ++ "0123456789").toList

/-- The full table claimed by C4: the base followed by its reverse. -/
def claimedSequenceTable : List Char :=
  claimedSequenceBase ++ claimedSequenceBase.reverse

/-- The amended base: as claimed, except that the digit segment is the
source literal `01234567890` — the digits 0 through 9 followed by a
second, trailing `0`. -/
def amendedSequenceBase : List Char :=
  ("abcdefghijklmnopqrstuvwxyz"
    ++ "qwertyuiopasdfghjklzxcvbnm"
    ++ "~!@#$%^&*()_+-="
    ++ ("0123456789" ++ "0")).toList

/-- The amended full table: the amended base followed by its reverse. -/
def amendedSequenceTable : List Char :=
  amendedSequenceBase ++ amendedSequenceBase.reverse

/-! ### Helper lemmas -/

theorem commonPrefixLen_le_length : ∀ (s t : List Char), commonPrefixLen s t ≤ s.length
  | [], t => by cases t <;> simp [commonPrefixLen]
  | _ :: _, [] => by simp [commonPrefixLen]
  | a :: as, b :: bs => by
    unfold commonPrefixLen
    split
    · exact Nat.succ_le_succ (commonPrefixLen_le_length as bs)
    · exact Nat.zero_le _

theorem le_maxCommonAt (s : List Char) :
    ∀ (t : List Char) (b : Nat), b ≤ maxCommonAt s t b
  | [], _ => Nat.le_refl _
  | c :: rest, b => by
    unfold maxCommonAt
    split
    · exact Nat.le_trans (Nat.le_max_left _ _) (le_maxCommonAt s rest _)
    · exact le_maxCommonAt s rest b

theorem maxCommonAt_le (s : List Char) :
    ∀ (t : List Char) (b : Nat), b ≤ s.length → maxCommonAt s t b ≤ s.length
  | [], _, h => h
  | c :: rest, b, h => by
    unfold maxCommonAt
    split
    · exact maxCommonAt_le s rest _
        (Nat.max_le.mpr ⟨h, commonPrefixLen_le_length s (c :: rest)⟩)
    · exact maxCommonAt_le s rest b h

theorem one_le_commonLength (s : List Char) : 1 ≤ commonLength s :=
  le_maxCommonAt s _sequences 1

theorem commonLength_le_length (c : Char) (rest : List Char) :
    commonLength (c :: rest) ≤ (c :: rest).length :=
  maxCommonAt_le (c :: rest) _sequences 1 (Nat.succ_le_succ (Nat.zero_le _))

theorem seqLoopF_le (fuel : Nat) : ∀ (s : List Char), seqLoopF fuel s ≤ s.length := by
  induction fuel with
  | zero => intro s; exact Nat.zero_le _
  | succ fuel ih =>
    intro s
    cases s with
    | nil => exact Nat.le_refl _
    | cons c rest =>
      simp only [seqLoopF]
      have h1 : 1 ≤ commonLength (c :: rest) := one_le_commonLength _
      have h2 : commonLength (c :: rest) ≤ (c :: rest).length :=
        commonLength_le_length c rest
      have h3 := ih ((c :: rest).drop (commonLength (c :: rest)))
      rw [List.length_drop] at h3
      have hpay : (if commonLength (c :: rest) > 1 then commonLength (c :: rest) else 0)
          ≤ commonLength (c :: rest) := by split <;> omega
      omega

theorem seqLoopF_nil (f : Nat) : seqLoopF f [] = 0 := by cases f <;> rfl

theorem seqLoopF_fuel_eq : ∀ (f1 : Nat) (s : List Char) (f2 : Nat),
    s.length ≤ f1 → s.length ≤ f2 → seqLoopF f1 s = seqLoopF f2 s := by
  intro f1
  induction f1 with
  | zero =>
    intro s f2 h1 _
    have hs : s = [] := List.eq_nil_of_length_eq_zero (Nat.le_zero.mp h1)
    subst hs
    rw [seqLoopF_nil, seqLoopF_nil]
  | succ f ih =>
    intro s f2 h1 h2
    cases s with
    | nil => rw [seqLoopF_nil, seqLoopF_nil]
    | cons c rest =>
      cases f2 with
      | zero =>
        exact absurd h2 (by simp)
      | succ f2 =>
        simp only [seqLoopF]
        congr 1
        have hcl : 1 ≤ commonLength (c :: rest) := one_le_commonLength _
        apply ih
        · rw [List.length_drop]
          simp only [List.length_cons] at h1 ⊢
          omega
        · rw [List.length_drop]
          simp only [List.length_cons] at h2 ⊢
          omega

/-! ### Claims -/

/-- Claim C1 (code_bug evidence): on the empty password the code does
not return 0.0 — it evaluates `log(0, 2)`, which raises
`ValueError: math domain error`, modelled as `Except.error ()`. -/
theorem entropy_bits_empty_raises : entropy_bits [] = Except.error () := by
  simp [entropy_bits, alphabet_cardinality, alphabet, length]

/-- Claim C2 (counterexample): the claim says sequence detection is
case-insensitive, in particular that
`sequences_length("ABCDEF") == sequences_length("abcdef")`; on the code
the left side is 0 and the right side is 6, since the table holds only
lowercase letters and matching is exact. -/
theorem sequences_length_not_case_insensitive :
    sequences_length "ABCDEF".toList ≠ sequences_length "abcdef".toList := by
  decide

/-- Claim C2 (amended): sequence detection is case-sensitive — the
password is never lowercased and the table contains no uppercase
letters, so `sequences_length("ABCDEF") == 0` while
`sequences_length("abcdef") == 6`. -/
theorem sequences_length_case_sensitive :
    sequences_length "ABCDEF".toList = 0 ∧ sequences_length "abcdef".toList = 6 := by
  decide

/-- Claim C3: `strength()` returns the dedicated non-value variant
(`None`, modelled `Option.none`) for every password, and never an
ordinary numeric value. -/
theorem strength_unimplemented (p : List Char) :
    strength p = none ∧ ∀ q : ℚ, strength p ≠ some q :=
  ⟨rfl, fun _ h => Option.noConfusion h⟩

/-- Claim C4 (counterexample): the source table differs from the table
claimed by C4 (digits 0 through 9 each exactly once): the digit segment
of the source is `01234567890`, with `0` twice. -/
theorem sequences_table_ne_claimed : _sequences ≠ claimedSequenceTable := by
  decide

/-- Claim C4 (amended): the table equals the concatenation of the four
segments — with the digit segment being 0 through 9 followed by a
second, trailing 0 — followed by the reverse of that concatenation. -/
theorem sequences_table_eq_amended : _sequences = amendedSequenceTable := by
  decide

/-- Claim C5: the repeated-pattern detector returns 4 on `aaaa`
(unit `a` repeated four times), 6 on `abcabc` and 0 on `abcd`. -/
theorem repeated_patterns_length_examples :
    repeated_patterns_length "aaaa".toList = 4
      ∧ repeated_patterns_length "abcabc".toList = 6
      ∧ repeated_patterns_length "abcd".toList = 0 := by
  decide

/-- Claim C6: the sequence detector returns 6 on `abcdef`, `qwerty` and
`zyxwvu` (reverse alphabet run), and 0 on `a1b2` and on the empty
password. -/
theorem sequences_length_examples :
    sequences_length "abcdef".toList = 6
      ∧ sequences_length "qwerty".toList = 6
      ∧ sequences_length "zyxwvu".toList = 6
      ∧ sequences_length "a1b2".toList = 0
      ∧ sequences_length "".toList = 0 := by
  decide

/-- Claim C7: for every password, every category assignment and every
fixed set of top-level category letters, `count` plus `count_except`
equals the password length. -/
theorem count_add_count_except_eq_length (category : Char → String)
    (p : List Char) (cats : List String) :
    count category p cats + count_except category p cats = length p := by
  have hpt : ∀ x : String × Nat,
      (if x.1 ∈ cats then 1 else 0) * x.2 + (if x.1 ∈ cats then 0 else 1) * x.2 = x.2 := by
    intro x
    by_cases h : x.1 ∈ cats <;> simp [h]
  unfold count count_except
  rw [← List.sum_map_add]
  simp only [hpt]
  unfold char_categories counterItems
  rw [List.map_map]
  have hcomp : ((fun x : String × Nat => x.2)
      ∘ fun s => (s, ((p.map category).map (fun cat => cat.take 1)).count s))
      = fun s => ((p.map category).map (fun cat => cat.take 1)).count s := rfl
  rw [hcomp, List.sum_map_count_dedup_eq_length]
  simp [length]

/-- Claim C8: the scan cursor always advances by `common_length ≥ 1`,
so password-length fuel suffices: running the loop with any fuel of at
least the password length gives `sequences_length` — the loop
terminates within `length` iterations. -/
theorem sequences_scan_terminates (p : List Char) (fuel : Nat)
    (h : length p ≤ fuel) :
    1 ≤ commonLength p ∧ seqLoopF fuel p = sequences_length p :=
  ⟨one_le_commonLength p, seqLoopF_fuel_eq fuel p p.length h (Nat.le_refl _)⟩

/-- Witness for claim C8 at the concrete password `abc` with fuel 10. -/
theorem sequences_scan_terminates_witness :
    length "abc".toList ≤ 10
      ∧ (1 ≤ commonLength "abc".toList
          ∧ seqLoopF 10 "abc".toList = sequences_length "abc".toList) :=
  ⟨by decide, sequences_scan_terminates "abc".toList 10 (by decide)⟩

/-- Claim C9: the sequence detector result is between 0 and the
password length: counted runs advance the cursor by exactly their
length and never overlap. -/
theorem sequences_length_bounded (p : List Char) :
    0 ≤ sequences_length p ∧ sequences_length p ≤ length p :=
  ⟨Nat.zero_le _, seqLoopF_le p.length p⟩

/-- Claim C10: `combinations` of the empty password is the exact
integer 1, since the power `0 ^ 0` evaluates to 1. -/
theorem combinations_empty : combinations [] = 1 := by decide
